import Mathlib

/-!
A shallow embedding of the room-based WebSocket session multiplexer in
`src/app/websocket_manager.py` (class `WebSocketManager`), together with the
durable records from `src/app/models.py` that its handlers read and write.

Modelling conventions:
* Python `dict`s that are iterated (insertion order matters, e.g.
  `active_connections`) are association lists `List (Nat × _)`; the dicts
  `room_users` and `user_rooms`, whose iteration order no claim depends on,
  are functions `Nat → Option (List Nat)`.
* Python `set`s of ids are duplicate-free `List Nat` with `addElem`
  (`set.add`) and `delElem` (`set.discard`).
* Timestamps are `Nat`s; `datetime.utcnow()` is threaded as a `now` argument.
* The SQLAlchemy session is modelled as a `Store` of row lists; a query
  `.first()` is `List.find?`; `db.session.commit()` either applies the
  staged writes or, when the `dbOk : Bool` parameter is `false`, raises —
  which the source catches per its `try/except` structure (the staged rows
  are then not persisted, and control jumps to the handler's `except` arm).
* Outbound `emit`/`socketio.emit` calls are recorded as an `Event` list;
  events carrying a session id are deliveries to that one session, events
  carrying only a room id are room broadcasts.
-/

set_option autoImplicit false

namespace WsManager

/-- Status column of `users.status` (`UserStatus` in `models.py`). -/
inductive UserStatus where
  | active
  | inactive
  | suspended
deriving DecidableEq, Repr

/-- Row of the `users` table (the fields the manager reads). -/
structure UserRow where
  id : Nat
  username : String
  status : UserStatus
deriving DecidableEq, Repr

/-- Row of the `user_sessions` table (the fields `_verify_session_token` reads). -/
structure SessionRow where
  session_token : String
  user_id : Nat
  expires_at : Nat
  is_active : Bool
deriving DecidableEq, Repr

/-- Row of the `chat_rooms` table (the fields the manager reads). -/
structure RoomRec where
  id : Nat
  name : String
  is_public : Bool
  is_active : Bool
  max_users : Nat
deriving DecidableEq, Repr

/-- Row of the `user_rooms` table (durable membership record). -/
structure UserRoomRow where
  user_id : Nat
  room_id : Nat
  joined_at : Nat
  left_at : Option Nat
  is_active : Bool
  can_send_messages : Bool
  is_moderator : Bool
deriving DecidableEq, Repr

/-- Row of the `chat_messages` table (the fields the manager reads/writes). -/
structure Msg where
  id : Nat
  user_id : Nat
  room_id : Nat
  content : String
  message_type : String
  created_at : Nat
  is_edited : Bool
  is_deleted : Bool
deriving DecidableEq, Repr

/-- The durable store (the SQLAlchemy database) as row lists. -/
structure Store where
  users : List UserRow
  sessions : List SessionRow
  rooms : List RoomRec
  user_rooms : List UserRoomRow
  messages : List Msg
  next_msg_id : Nat
deriving DecidableEq, Repr

/-- One entry of `active_connections`:
`{user_id, username, rooms, connected_at, ip_address}`. -/
structure Conn where
  user_id : Nat
  username : String
  rooms : List Nat
  connected_at : Nat
  ip_address : String
deriving DecidableEq, Repr

/-- Outbound emissions. Constructors carrying a `sid` are per-session
deliveries; `userJoined`, `userLeft` and `newMessage` are room broadcasts. -/
inductive Event where
  | error (sid : Nat) (msg : String)
  | connected (sid : Nat) (uid : Nat)
  | availableRooms (sid : Nat) (roomIds : List Nat)
  | userJoined (room : Nat) (uid : Nat)
  | roomJoined (sid : Nat) (room : Nat) (userCount : Nat)
  | recentMessages (sid : Nat) (room : Nat) (msgs : List Msg)
  | userLeft (room : Nat) (uid : Nat)
  | roomLeft (sid : Nat) (room : Nat)
  | newMessage (room : Nat) (msgId : Nat) (uid : Nat) (content : String)
deriving DecidableEq, Repr

/-- The in-memory state of `WebSocketManager` plus the durable store. -/
structure ServerState where
  active_connections : List (Nat × Conn)
  room_users : Nat → Option (List Nat)
  user_rooms : Nat → Option (List Nat)
  store : Store

/-- Dict read: first entry with the given key. -/
def lookupA {α : Type} (l : List (Nat × α)) (k : Nat) : Option α :=
  (l.find? (fun p => p.1 == k)).map (fun p => p.2)

/-- Dict write `d[k] = v`: replaces the value in place if the key is present,
otherwise appends (Python dicts keep insertion order). -/
def insertA {α : Type} (l : List (Nat × α)) (k : Nat) (v : α) : List (Nat × α) :=
  if (l.find? (fun p => p.1 == k)).isSome then
    l.map (fun p => if p.1 == k then (p.1, v) else p)
  else l ++ [(k, v)]

/-- In-place mutation of the value stored at a key (e.g. `d[k].add(x)`). -/
def updateA {α : Type} (l : List (Nat × α)) (k : Nat) (f : α → α) : List (Nat × α) :=
  l.map (fun p => if p.1 == k then (p.1, f p.2) else p)

/-- Dict delete `del d[k]`. -/
def eraseA {α : Type} (l : List (Nat × α)) (k : Nat) : List (Nat × α) :=
  l.filter (fun p => p.1 != k)

/-- Function-backed dict write. -/
def fset (m : Nat → Option (List Nat)) (k : Nat) (v : List Nat) :
    Nat → Option (List Nat) :=
  fun k' => if k' = k then some v else m k'

/-- Python `set.add`. -/
def addElem (x : Nat) (l : List Nat) : List Nat :=
  if x ∈ l then l else x :: l

/-- Python `set.discard`. -/
def delElem (x : Nat) (l : List Nat) : List Nat :=
  l.filter (fun y => y ≠ x)

/-- Python `str.strip()`: drop whitespace from both ends (an executable
model of the trimming in `content = data.get('content', '').strip()`). -/
def pyStrip (s : String) : String :=
  String.mk (((s.data.dropWhile Char.isWhitespace).reverse.dropWhile
    Char.isWhitespace).reverse)

/-- `ChatRoom.query.get(room_id)`. -/
def room_get (store : Store) (rid : Nat) : Option RoomRec :=
  store.rooms.find? (fun r => r.id == rid)

/-- `UserRoom.query.filter_by(user_id=uid, room_id=rid, is_active=True).first()`. -/
def active_row (store : Store) (uid rid : Nat) : Option UserRoomRow :=
  store.user_rooms.find? (fun ur => ur.user_id == uid && ur.room_id == rid && ur.is_active)

/-- `UserRoom.query.filter_by(user_id=uid, room_id=rid).first()`. -/
def any_row (store : Store) (uid rid : Nat) : Option UserRoomRow :=
  store.user_rooms.find? (fun ur => ur.user_id == uid && ur.room_id == rid)

/-- Rewrite the first row satisfying `p` (SQLAlchemy mutates the fetched row,
which is the first match of the filter, and commits). -/
def updateFirst {α : Type} (p : α → Bool) (f : α → α) : List α → List α
  | [] => []
  | x :: xs => if p x then f x :: xs else x :: updateFirst p f xs

/-- `_verify_session_token` (`websocket_manager.py` lines 376-397): look up
an active session row by token, reject expired sessions and missing or
non-active users. -/
def verify_session_token (now : Nat) (store : Store) (token : String) :
    Option UserRow :=
  match store.sessions.find? (fun s => s.session_token == token && s.is_active) with
  | none => none
  | some s =>
    if s.expires_at < now then none
    else
      match store.users.find? (fun u => u.id == s.user_id) with
      | none => none
      | some u => if u.status == UserStatus.active then some u else none

/-- Payload entry of the `available_rooms` push (the dict built at
`websocket_manager.py` lines 462-470). -/
structure RoomInfo where
  id : Nat
  name : String
  is_public : Bool
  user_count : Nat
deriving DecidableEq, Repr

/-- The `rooms_data` list of `_send_available_rooms`: public active rooms,
then the user's private active rooms (those with an active membership row). -/
def available_rooms_payload (uid : Nat) (st : ServerState) : List RoomInfo :=
  let pubRooms := st.store.rooms.filter (fun r => r.is_public && r.is_active)
  let privRooms := st.store.rooms.filter (fun r =>
    !r.is_public && r.is_active &&
      st.store.user_rooms.any (fun ur =>
        ur.user_id == uid && ur.room_id == r.id && ur.is_active))
  (pubRooms ++ privRooms).map (fun r =>
    { id := r.id, name := r.name, is_public := r.is_public,
      user_count := ((st.room_users r.id).getD []).length })

/-- `_send_available_rooms` (lines 449-485): compute the payload, then scan
`active_connections` for the first session of the user and emit to it only. -/
def send_available_rooms (uid : Nat) (st : ServerState) : List Event :=
  match st.active_connections.find? (fun p => p.2.user_id == uid) with
  | none => []
  | some p => [Event.availableRooms p.1 ((available_rooms_payload uid st).map (fun r => r.id))]

/-- Insertion step of the `ORDER BY created_at DESC` reading of the message
table: keeps newest-first order. -/
def insertByCreatedDesc (m : Msg) : List Msg → List Msg
  | [] => [m]
  | x :: xs =>
    if x.created_at ≤ m.created_at then m :: x :: xs
    else x :: insertByCreatedDesc m xs

/-- Newest-first sort, modelling the SQL `ORDER BY created_at DESC`. -/
def sortByCreatedDesc : List Msg → List Msg
  | [] => []
  | x :: xs => insertByCreatedDesc x (sortByCreatedDesc xs)

/-- The query of `_send_recent_messages` (lines 490-496): non-deleted messages
of the room, newest-first, limited, then reversed into chronological order. -/
def recent_messages_query (store : Store) (rid limit : Nat) : List Msg :=
  ((sortByCreatedDesc (store.messages.filter
      (fun m => m.room_id == rid && !m.is_deleted))).take limit).reverse

/-- `_send_recent_messages` (lines 487-513): build the message payload, then
scan `active_connections` for the first session of the user and emit to it
only. The source's `limit` parameter defaults to 50; every caller uses the
default, passed explicitly here. -/
def send_recent_messages (rid uid : Nat) (st : ServerState) (limit : Nat) :
    List Event :=
  match st.active_connections.find? (fun p => p.2.user_id == uid) with
  | none => []
  | some p => [Event.recentMessages p.1 rid (recent_messages_query st.store rid limit)]

/-- `handle_connect` (lines 46-101). Returns the new state, the emissions and
whether the connection was accepted (`False` means the transport is
disconnected). -/
def handle_connect (now sid : Nat) (auth : Option String) (ip : String)
    (st : ServerState) : ServerState × List Event × Bool :=
  match auth with
  | none => (st, [], false)
  | some token =>
    match verify_session_token now st.store token with
    | none => (st, [], false)
    | some user =>
      let conn : Conn :=
        { user_id := user.id, username := user.username, rooms := [],
          connected_at := now, ip_address := ip }
      let st1 : ServerState :=
        { st with
          active_connections := insertA st.active_connections sid conn,
          user_rooms :=
            (match st.user_rooms user.id with
             | none => fset st.user_rooms user.id []
             | some _ => st.user_rooms) }
      (st1, Event.connected sid user.id :: send_available_rooms user.id st1, true)

/-- Staged write of `handle_join_room` lines 174-190: upsert the membership
row to `is_active=True, left_at=None`, creating it with column defaults
(`can_send_messages=True, is_moderator=False`) if absent. -/
def upsert_join (store : Store) (uid rid now : Nat) : Store :=
  if (any_row store uid rid).isSome then
    { store with user_rooms :=
        (updateFirst (fun ur => ur.user_id == uid && ur.room_id == rid)
          (fun ur => { ur with is_active := true, left_at := none })
          store.user_rooms) }
  else
    { store with user_rooms := store.user_rooms ++
        [{ user_id := uid, room_id := rid, joined_at := now, left_at := none,
           is_active := true, can_send_messages := true, is_moderator := false }] }

/-- `handle_join_room` (lines 130-216): authentication, room-id presence,
room existence/activity and private-room access checks; then the in-memory
commit (connection's room set, `room_users`, `user_rooms`), the durable
upsert, and the `user_joined` / `room_joined` / recent-messages emissions.
A missing `user_rooms` key or a failed commit (`dbOk = false`) raises into
the `except` arm, which emits a generic error; the in-memory mutations
already performed remain. -/
def handle_join_room (dbOk : Bool) (now sid : Nat) (roomArg : Option Nat)
    (st : ServerState) : ServerState × List Event :=
  match lookupA st.active_connections sid with
  | none => (st, [Event.error sid "Not authenticated"])
  | some conn =>
    match roomArg with
    | none => (st, [Event.error sid "Room ID required"])
    | some rid =>
      let uid := conn.user_id
      match room_get st.store rid with
      | none => (st, [Event.error sid "Room not found or inactive"])
      | some room =>
        if !room.is_active then (st, [Event.error sid "Room not found or inactive"])
        else if !room.is_public && (active_row st.store uid rid).isNone then
          (st, [Event.error sid "Access denied to private room"])
        else
          let st1 : ServerState :=
            { st with
              active_connections := updateA st.active_connections sid
                (fun c => { c with rooms := addElem rid c.rooms }),
              room_users := fset st.room_users rid
                (addElem uid ((st.room_users rid).getD [])) }
          match st1.user_rooms uid with
          | none => (st1, [Event.error sid "Failed to join room"])
          | some s =>
            let st2 : ServerState :=
              { st1 with user_rooms := fset st1.user_rooms uid (addElem rid s) }
            if !dbOk then (st2, [Event.error sid "Failed to join room"])
            else
              let st3 : ServerState := { st2 with store := upsert_join st2.store uid rid now }
              (st3,
                Event.userJoined rid uid ::
                Event.roomJoined sid rid ((st3.room_users rid).getD []).length ::
                send_recent_messages rid uid st3 50)

/-- `_leave_room_internal` (lines 399-447): drop the room from the
connection, discard the user from `room_users` and the room from
`user_rooms`, deactivate the durable row if one exists, then emit
`user_left` to the room and `room_left` to the session. A failed commit
raises into the `except` arm, which only logs — so the emissions are
skipped while the in-memory changes remain. -/
def leave_room_internal (dbOk : Bool) (now sid rid : Nat) (st : ServerState) :
    ServerState × List Event :=
  match lookupA st.active_connections sid with
  | none => (st, [])
  | some conn =>
    let uid := conn.user_id
    let st1 : ServerState :=
      { st with
        active_connections := updateA st.active_connections sid
          (fun c => { c with rooms := delElem rid c.rooms }),
        room_users :=
          (match st.room_users rid with
           | none => st.room_users
           | some s => fset st.room_users rid (delElem uid s)) }
    let st2 : ServerState :=
      { st1 with user_rooms :=
          (match st1.user_rooms uid with
           | none => st1.user_rooms
           | some s => fset st1.user_rooms uid (delElem rid s)) }
    match any_row st2.store uid rid with
    | none => (st2, [Event.userLeft rid uid, Event.roomLeft sid rid])
    | some _ =>
      if !dbOk then (st2, [])
      else
        let st3 : ServerState :=
          { st2 with store :=
              { st2.store with user_rooms :=
                  (updateFirst (fun ur => ur.user_id == uid && ur.room_id == rid)
                    (fun ur => { ur with is_active := false, left_at := some now })
                    st2.store.user_rooms) } }
        (st3, [Event.userLeft rid uid, Event.roomLeft sid rid])

/-- `handle_leave_room` (lines 218-230): delegate to `_leave_room_internal`
when the session is live and a room id was supplied; otherwise do nothing. -/
def handle_leave_room (dbOk : Bool) (now sid : Nat) (roomArg : Option Nat)
    (st : ServerState) : ServerState × List Event :=
  match roomArg with
  | none => (st, [])
  | some rid =>
    if (lookupA st.active_connections sid).isSome then
      leave_room_internal dbOk now sid rid st
    else (st, [])

/-- Tail of `handle_send_message` (lines 268-289): persist the message row,
then broadcast `new_message` to the room. A failed commit raises into the
`except` arm, which emits a generic error. -/
def send_message_commit (dbOk : Bool) (now sid uid rid : Nat)
    (content mtype : String) (st : ServerState) : ServerState × List Event :=
  if !dbOk then (st, [Event.error sid "Failed to send message"])
  else
    let msg : Msg :=
      { id := st.store.next_msg_id, user_id := uid, room_id := rid,
        content := content, message_type := mtype, created_at := now,
        is_edited := false, is_deleted := false }
    let st' : ServerState :=
      { st with store :=
          { st.store with messages := st.store.messages ++ [msg],
                          next_msg_id := st.store.next_msg_id + 1 } }
    (st', [Event.newMessage rid msg.id uid content])

/-- `handle_send_message` (lines 232-295): authentication, then the combined
room-id/empty-content check, then in-room membership, then the
`can_send_messages` permission of the active membership row (if any), then
persist-and-broadcast. Note the source has no room-existence or
`is_active` check on this path. -/
def handle_send_message (dbOk : Bool) (now sid : Nat) (roomArg : Option Nat)
    (content mtype : String) (st : ServerState) : ServerState × List Event :=
  match lookupA st.active_connections sid with
  | none => (st, [Event.error sid "Not authenticated"])
  | some conn =>
    match roomArg with
    | none => (st, [Event.error sid "Room ID and content required"])
    | some rid =>
      let trimmed := pyStrip content
      if trimmed == "" then (st, [Event.error sid "Room ID and content required"])
      else
        let uid := conn.user_id
        if rid ∉ conn.rooms then (st, [Event.error sid "You are not in this room"])
        else
          match active_row st.store uid rid with
          | some ur =>
            if !ur.can_send_messages then
              (st, [Event.error sid "You do not have permission to send messages"])
            else send_message_commit dbOk now sid uid rid trimmed mtype st
          | none => send_message_commit dbOk now sid uid rid trimmed mtype st

/-- The `for room_id in conn_info['rooms'].copy(): self._leave_room_internal(...)`
loop shared by `handle_disconnect` and the cleanup sweep. -/
def leave_all (dbOk : Bool) (now sid : Nat) :
    List Nat → ServerState → ServerState × List Event
  | [], st => (st, [])
  | r :: rs, st =>
    let x := leave_room_internal dbOk now sid r st
    let y := leave_all dbOk now sid rs x.1
    (y.1, x.2 ++ y.2)

/-- `handle_disconnect` (lines 103-128): leave every joined room, then delete
the connection entry. -/
def handle_disconnect (dbOk : Bool) (now sid : Nat) (st : ServerState) :
    ServerState × List Event :=
  match lookupA st.active_connections sid with
  | none => (st, [])
  | some conn =>
    let x := leave_all dbOk now sid conn.rooms st
    ({ x.1 with active_connections := eraseA x.1.active_connections sid }, x.2)

/-- Inner loop of `_cleanup_inactive_connections` (lines 527-536): for each
collected stale session still present, leave every joined room and delete
the connection entry. -/
def reap_all (dbOk : Bool) (now : Nat) :
    List Nat → ServerState → ServerState × List Event
  | [], st => (st, [])
  | s :: ss, st =>
    match lookupA st.active_connections s with
    | none => reap_all dbOk now ss st
    | some conn =>
      let x := leave_all dbOk now s conn.rooms st
      let st2 : ServerState :=
        { x.1 with active_connections := eraseA x.1.active_connections s }
      let y := reap_all dbOk now ss st2
      (y.1, x.2 ++ y.2)

/-- One pass of the `_cleanup_inactive_connections` loop body (lines
515-543): collect the sessions older than 24 hours (86400 seconds), then
tear each one down. -/
def cleanup_sweep (dbOk : Bool) (now : Nat) (st : ServerState) :
    ServerState × List Event :=
  let inactive :=
    (st.active_connections.filter
      (fun p => 86400 < now - p.2.connected_at)).map (fun p => p.1)
  reap_all dbOk now inactive st

/-- One inbound operation of the manager, tagged with its request data, the
wall clock at arrival and whether the durable commit it may attempt
succeeds. -/
inductive Op where
  | connect (now sid : Nat) (auth : Option String) (ip : String)
  | disconnect (dbOk : Bool) (now sid : Nat)
  | join (dbOk : Bool) (now sid : Nat) (roomArg : Option Nat)
  | leave (dbOk : Bool) (now sid : Nat) (roomArg : Option Nat)
  | send (dbOk : Bool) (now sid : Nat) (roomArg : Option Nat) (content mtype : String)
  | sweep (dbOk : Bool) (now : Nat)
deriving DecidableEq, Repr

/-- State effect of one operation. -/
def applyOp (op : Op) (st : ServerState) : ServerState :=
  match op with
  | .connect now sid auth ip => (handle_connect now sid auth ip st).1
  | .disconnect dbOk now sid => (handle_disconnect dbOk now sid st).1
  | .join dbOk now sid roomArg => (handle_join_room dbOk now sid roomArg st).1
  | .leave dbOk now sid roomArg => (handle_leave_room dbOk now sid roomArg st).1
  | .send dbOk now sid roomArg c t => (handle_send_message dbOk now sid roomArg c t st).1
  | .sweep dbOk now => (cleanup_sweep dbOk now st).1

/-- State effect of a sequence of operations. -/
def applyOps : List Op → ServerState → ServerState
  | [], st => st
  | op :: ops, st => applyOps ops (applyOp op st)

/-- An operation is admissible in a state when, if it is a `connect`, its
transport-assigned session id is fresh (the transport guarantees uniqueness
of `request.sid`). -/
def legalStep : Op → ServerState → Bool
  | Op.connect _ sid _ _, st => (lookupA st.active_connections sid).isNone
  | _, _ => true

/-- A trace is legal when every `connect` carries a fresh transport-assigned
session id. -/
def legal : List Op → ServerState → Bool
  | [], _ => true
  | op :: ops, st => legalStep op st && legal ops (applyOp op st)

/-- The manager's initial state: empty connection registry and indexes over
a given durable store (`WebSocketManager.__init__`). -/
def initState (store : Store) : ServerState :=
  { active_connections := [], room_users := fun _ => none,
    user_rooms := fun _ => none, store := store }

/-- The member index of a room: `room_users.get(R, set())`. -/
def memIndex (st : ServerState) (r : Nat) : List Nat :=
  (st.room_users r).getD []

/-- Keys of the connection registry are duplicate-free (Python dict keys). -/
def WFKeys (st : ServerState) : Prop :=
  (st.active_connections.map (fun p => p.1)).Nodup

/-- The containment direction of the index invariant: everyone listed in
`room_users[r]` has a live connection whose room set contains `r`. -/
def IdxSound (st : ServerState) : Prop :=
  ∀ r u, u ∈ memIndex st r →
    ∃ p, p ∈ st.active_connections ∧ p.2.user_id = u ∧ r ∈ p.2.rooms

theorem lookupA_cons {α : Type} (p : Nat × α) (l : List (Nat × α)) (k : Nat) :
    lookupA (p :: l) k = if p.1 = k then some p.2 else lookupA l k := by
  by_cases h : p.1 = k <;> simp [lookupA, List.find?_cons, h]

theorem updateA_cons {α : Type} (p : Nat × α) (t : List (Nat × α)) (k : Nat)
    (f : α → α) :
    updateA (p :: t) k f
      = (if p.1 == k then (p.1, f p.2) else p) :: updateA t k f := rfl

theorem lookupA_updateA {α : Type} (l : List (Nat × α)) (k : Nat) (f : α → α)
    (k' : Nat) :
    lookupA (updateA l k f) k'
      = if k' = k then (lookupA l k).map f else lookupA l k' := by
  induction l with
  | nil => by_cases h : k' = k <;> simp [updateA, lookupA, h]
  | cons p t ih =>
    rw [updateA_cons]
    by_cases hp : p.1 = k
    · rw [if_pos (by simpa using hp)]
      by_cases hk : k' = k
      · subst hk
        simp [lookupA_cons, hp]
      · have hne : p.1 ≠ k' := by rw [hp]; exact fun h => hk h.symm
        simp [lookupA_cons, hne, hk, ih]
    · rw [if_neg (by simpa using hp)]
      by_cases hq : p.1 = k'
      · have hk : k' ≠ k := fun h => hp (hq.trans h)
        simp [lookupA_cons, hq, hk]
      · simp [lookupA_cons, hq, hp, ih]

theorem keys_updateA {α : Type} (l : List (Nat × α)) (k : Nat) (f : α → α) :
    (updateA l k f).map (fun p => p.1) = l.map (fun p => p.1) := by
  induction l with
  | nil => rfl
  | cons p t ih =>
    rw [updateA_cons, List.map_cons, List.map_cons, ih]
    by_cases h : p.1 = k
    · rw [if_pos (by simpa using h)]
    · rw [if_neg (by simpa using h)]

theorem lookupA_of_mem_nodup {α : Type} {l : List (Nat × α)} {p : Nat × α}
    (hnd : (l.map (fun q => q.1)).Nodup) (hp : p ∈ l) :
    lookupA l p.1 = some p.2 := by
  induction l with
  | nil => cases hp
  | cons q t ih =>
    rcases List.mem_cons.mp hp with h | h
    · subst h; simp [lookupA_cons]
    · have hq : q.1 ∉ t.map (fun r => r.1) := (List.nodup_cons.mp hnd).1
      have hne : q.1 ≠ p.1 := by
        intro he
        exact hq (he ▸ List.mem_map_of_mem (fun r => r.1) h)
      rw [lookupA_cons, if_neg hne]
      exact ih (List.nodup_cons.mp hnd).2 h

theorem updateA_eq_self {α : Type} (l : List (Nat × α)) (k : Nat) (f : α → α)
    (h : ∀ p ∈ l, p.1 = k → f p.2 = p.2) : updateA l k f = l := by
  induction l with
  | nil => rfl
  | cons p t ih =>
    rw [updateA_cons, ih (fun q hq hk => h q (List.mem_cons_of_mem p hq) hk)]
    by_cases hp : p.1 = k
    · rw [if_pos (by simpa using hp), h p (List.mem_cons_self p t) hp]
    · rw [if_neg (by simpa using hp)]

theorem mem_addElem {x a : Nat} {l : List Nat} :
    a ∈ addElem x l ↔ a = x ∨ a ∈ l := by
  unfold addElem
  by_cases h : x ∈ l
  · simp only [if_pos h]
    constructor
    · exact Or.inr
    · rintro (rfl | ha)
      · exact h
      · exact ha
  · simp [if_neg h]

theorem mem_delElem {x a : Nat} {l : List Nat} :
    a ∈ delElem x l ↔ a ∈ l ∧ a ≠ x := by
  simp [delElem]

theorem delElem_eq_self {x : Nat} {l : List Nat} (h : x ∉ l) :
    delElem x l = l := by
  rw [delElem, List.filter_eq_self]
  intro a ha
  simp only [decide_eq_true_eq]
  exact fun he => h (he ▸ ha)

theorem fset_eval (m : Nat → Option (List Nat)) (k : Nat) (v : List Nat)
    (k' : Nat) : fset m k v k' = if k' = k then some v else m k' := rfl

theorem fset_eq_self (m : Nat → Option (List Nat)) (k : Nat) (v : List Nat)
    (h : m k = some v) : fset m k v = m := by
  funext k'
  rw [fset_eval]
  by_cases hk : k' = k
  · rw [if_pos hk, hk, h]
  · rw [if_neg hk]

theorem updateFirst_eq_self {α : Type} (p : α → Bool) (f : α → α)
    (l : List α) (h : ∀ x ∈ l, p x = false) : updateFirst p f l = l := by
  induction l with
  | nil => rfl
  | cons x t ih =>
    rw [updateFirst, if_neg (by simp [h x (List.mem_cons_self x t)]),
      ih (fun y hy => h y (List.mem_cons_of_mem x hy))]

/-- A small concrete store used to instantiate the theorems: one active
user with one valid token, one public active room and one public inactive
room. -/
def exStore : Store :=
  { users := [{ id := 1, username := "alice", status := UserStatus.active }],
    sessions := [{ session_token := "tok", user_id := 1, expires_at := 1000,
                   is_active := true }],
    rooms := [{ id := 1, name := "general", is_public := true, is_active := true,
                max_users := 100 },
              { id := 7, name := "closed", is_public := true, is_active := false,
                max_users := 100 }],
    user_rooms := [],
    messages := [],
    next_msg_id := 0 }

/-- A live connection of user 1 with the given joined rooms. -/
def connOf (uid : Nat) (rooms : List Nat) : Conn :=
  { user_id := uid, username := "alice", rooms := rooms, connected_at := 0,
    ip_address := "ip" }

/-- Concrete state: session 1 of user 1 is live and has joined no room. -/
def cexSt1 : ServerState :=
  { active_connections := [(1, connOf 1 [])],
    room_users := fun _ => none,
    user_rooms := fun u => if u = 1 then some [] else none,
    store := exStore }

/-- Concrete state: session 1 of user 1 is live and inside room 7, whose
durable record has `is_active = false`. -/
def cexSt2 : ServerState :=
  { active_connections := [(1, connOf 1 [7])],
    room_users := fun r => if r = 7 then some [1] else none,
    user_rooms := fun u => if u = 1 then some [7] else none,
    store := exStore }

/-- C8: a send whose content is empty after trimming yields exactly one
error event to the sender, leaves the whole state (in particular the
message table) unchanged, and broadcasts nothing to the room. -/
theorem send_empty_content_no_row_no_broadcast (dbOk : Bool) (now sid : Nat)
    (conn : Conn) (roomArg : Option Nat) (content mtype : String)
    (st : ServerState)
    (hconn : lookupA st.active_connections sid = some conn)
    (hempty : pyStrip content = "") :
    handle_send_message dbOk now sid roomArg content mtype st
      = (st, [Event.error sid "Room ID and content required"]) := by
  unfold handle_send_message
  rw [hconn]
  cases roomArg with
  | none => rfl
  | some rid => simp [hempty]

theorem send_empty_content_no_row_no_broadcast_witness :
    handle_send_message true 0 1 (some 1) "  " "text" cexSt1
      = (cexSt1, [Event.error 1 "Room ID and content required"]) :=
  send_empty_content_no_row_no_broadcast true 0 1 (connOf 1 []) (some 1)
    "  " "text" cexSt1 rfl (by decide)

/-- C1 (amended): for a send request from a live session the precondition
checks fire in source order: first the combined room-id-present and
content-non-empty-after-trimming check, then membership of the session in
the room, then the `can_send_messages` permission of the active membership
row (if present); there is no room-existence or room-activity check on
this path at all. -/
theorem send_message_precondition_order (dbOk : Bool) (now sid rid : Nat)
    (conn : Conn) (content mtype : String) (st : ServerState)
    (hconn : lookupA st.active_connections sid = some conn) :
    (pyStrip content = "" →
      handle_send_message dbOk now sid (some rid) content mtype st
        = (st, [Event.error sid "Room ID and content required"]))
    ∧ (pyStrip content ≠ "" → rid ∉ conn.rooms →
      handle_send_message dbOk now sid (some rid) content mtype st
        = (st, [Event.error sid "You are not in this room"]))
    ∧ (∀ ur, pyStrip content ≠ "" → rid ∈ conn.rooms →
        active_row st.store conn.user_id rid = some ur →
        ur.can_send_messages = false →
      handle_send_message dbOk now sid (some rid) content mtype st
        = (st, [Event.error sid "You do not have permission to send messages"])) := by
  refine ⟨?_, ?_, ?_⟩
  · intro he
    unfold handle_send_message
    rw [hconn]
    simp [he]
  · intro he hnr
    unfold handle_send_message
    rw [hconn]
    simp [he, hnr]
  · intro ur he hin hrow hperm
    unfold handle_send_message
    rw [hconn]
    simp only [he, hin]
    simp [he, hin, hrow, hperm]

theorem send_message_precondition_order_witness :
    handle_send_message true 0 1 (some 7) " " "text" cexSt1
      = (cexSt1, [Event.error 1 "Room ID and content required"]) :=
  (send_message_precondition_order true 0 1 7 (connOf 1 []) " " "text" cexSt1
    rfl).1 (by decide)

/-- C1 as stated fails on the code: with session 1 live but not in room 7
and content that trims to empty, the claim predicts the membership error
(`NotInRoom`) first, but the code returns the required-fields error; and
with session 1 inside room 7 whose room record is inactive, the claim
predicts `RoomUnavailable`, but the code persists and broadcasts the
message. -/
theorem send_message_claimed_order_cex :
    ((handle_send_message true 0 1 (some 7) " " "text" cexSt1).2
        = [Event.error 1 "Room ID and content required"]
      ∧ (handle_send_message true 0 1 (some 7) " " "text" cexSt1).2
        ≠ [Event.error 1 "You are not in this room"])
    ∧ (handle_send_message true 3 1 (some 7) "hi" "text" cexSt2).2
        = [Event.newMessage 7 0 1 "hi"]
    ∧ (handle_send_message true 3 1 (some 7) "hi" "text" cexSt2).1.store.messages
        ≠ [] := by
  refine ⟨⟨by decide, by decide⟩, by decide, by decide⟩

/-- C6: a connection attempt whose token is missing, or resolves to no
active session row, or to an expired session row, or to a missing or
non-active user account, is rejected: the state (in particular
`active_connections`) is unchanged, nothing is emitted, and the transport
is refused. -/
theorem connect_auth_failure_rejected (now sid : Nat) (auth : Option String)
    (ip : String) (st : ServerState)
    (h : auth = none ∨ ∃ tok, auth = some tok ∧
      (st.store.sessions.find?
          (fun s => s.session_token == tok && s.is_active) = none
        ∨ ∃ s, st.store.sessions.find?
              (fun s' => s'.session_token == tok && s'.is_active) = some s ∧
            (s.expires_at < now
              ∨ st.store.users.find? (fun u => u.id == s.user_id) = none
              ∨ ∃ u, st.store.users.find?
                    (fun u' => u'.id == s.user_id) = some u ∧
                  u.status ≠ UserStatus.active))) :
    handle_connect now sid auth ip st = (st, [], false) := by
  rcases h with rfl | ⟨tok, rfl, hcase⟩
  · rfl
  · have hv : verify_session_token now st.store tok = none := by
      unfold verify_session_token
      rcases hcase with hnone | ⟨s, hs, hrest⟩
      · rw [hnone]
      · simp only [hs]
        rcases hrest with hexp | husers | ⟨u, hu, hst⟩
        · rw [if_pos hexp]
        · by_cases hexp : s.expires_at < now
          · rw [if_pos hexp]
          · rw [if_neg hexp]
            simp only [husers]
        · by_cases hexp : s.expires_at < now
          · rw [if_pos hexp]
          · rw [if_neg hexp]
            simp only [hu]
            simp [hst]
    unfold handle_connect
    simp only [hv]

theorem connect_auth_failure_rejected_witness :
    handle_connect 0 5 (some "bad") "ip" (initState exStore)
      = (initState exStore, [], false) :=
  connect_auth_failure_rejected 0 5 (some "bad") "ip" (initState exStore)
    (Or.inr ⟨"bad", rfl, Or.inl (by decide)⟩)

/-- Concrete state: session 1 of user 1 is live with no joined room, the
indexes are empty, but the durable store holds an active membership row for
(user 1, room 1). -/
def cexSt3 : ServerState :=
  { active_connections := [(1, connOf 1 [])],
    room_users := fun _ => none,
    user_rooms := fun u => if u = 1 then some [] else none,
    store := { exStore with user_rooms :=
      [{ user_id := 1, room_id := 1, joined_at := 0, left_at := none,
         is_active := true, can_send_messages := true, is_moderator := false }] } }

/-- C4 (amended): leaving a room the session never joined (and whose index
entries do not mention the user) returns no error and leaves the in-memory
registry and indexes unchanged, but it is not a full no-op: the handler
still emits `user_left` to the room and `room_left` to the session, and it
deactivates the first matching durable membership row if one exists. -/
theorem leave_never_joined (now sid rid : Nat) (conn : Conn) (st : ServerState)
    (hWF : WFKeys st)
    (hconn : lookupA st.active_connections sid = some conn)
    (hroom : rid ∉ conn.rooms)
    (hidx : conn.user_id ∉ memIndex st rid)
    (hur : rid ∉ (st.user_rooms conn.user_id).getD []) :
    handle_leave_room true now sid (some rid) st
      = ({ st with store := { st.store with user_rooms :=
            (updateFirst (fun ur => ur.user_id == conn.user_id && ur.room_id == rid)
              (fun ur => { ur with is_active := false, left_at := some now })
              st.store.user_rooms) } },
         [Event.userLeft rid conn.user_id, Event.roomLeft sid rid]) := by
  have hsome : (lookupA st.active_connections sid).isSome := by rw [hconn]; rfl
  have hact : updateA st.active_connections sid
      (fun c => { c with rooms := delElem rid c.rooms }) = st.active_connections := by
    apply updateA_eq_self
    intro p hp hk
    have hl : lookupA st.active_connections sid = some p.2 := by
      rw [← hk]; exact lookupA_of_mem_nodup hWF hp
    have hpc : p.2 = conn := Option.some.inj (hl.symm.trans hconn)
    rw [hpc, delElem_eq_self hroom]
  show (if (lookupA st.active_connections sid).isSome then
      leave_room_internal true now sid rid st else (st, [])) = _
  rw [if_pos hsome]
  unfold leave_room_internal
  simp only [hconn]
  rw [hact]
  cases hm : st.room_users rid with
  | none =>
    cases hm2 : st.user_rooms conn.user_id with
    | none =>
      simp only []
      cases han : any_row st.store conn.user_id rid with
      | none =>
        have hall : ∀ ur ∈ st.store.user_rooms,
            (ur.user_id == conn.user_id && ur.room_id == rid) = false := by
          intro ur hmem
          exact Bool.not_eq_true _ |>.mp (List.find?_eq_none.mp han ur hmem)
        rw [updateFirst_eq_self _ _ _ hall]
      | some ur0 => rfl
    | some s2 =>
      have hrs : rid ∉ s2 := fun hmem => hur (by rw [hm2]; exact hmem)
      simp only [delElem_eq_self hrs, fset_eq_self st.user_rooms conn.user_id s2 hm2]
      cases han : any_row st.store conn.user_id rid with
      | none =>
        have hall : ∀ ur ∈ st.store.user_rooms,
            (ur.user_id == conn.user_id && ur.room_id == rid) = false := by
          intro ur hmem
          exact Bool.not_eq_true _ |>.mp (List.find?_eq_none.mp han ur hmem)
        rw [updateFirst_eq_self _ _ _ hall]
      | some ur0 => rfl
  | some s =>
    have hus : conn.user_id ∉ s := fun hmem => hidx (by rw [memIndex, hm]; exact hmem)
    simp only [delElem_eq_self hus, fset_eq_self st.room_users rid s hm]
    cases hm2 : st.user_rooms conn.user_id with
    | none =>
      simp only []
      cases han : any_row st.store conn.user_id rid with
      | none =>
        have hall : ∀ ur ∈ st.store.user_rooms,
            (ur.user_id == conn.user_id && ur.room_id == rid) = false := by
          intro ur hmem
          exact Bool.not_eq_true _ |>.mp (List.find?_eq_none.mp han ur hmem)
        rw [updateFirst_eq_self _ _ _ hall]
      | some ur0 => rfl
    | some s2 =>
      have hrs : rid ∉ s2 := fun hmem => hur (by rw [hm2]; exact hmem)
      simp only [delElem_eq_self hrs, fset_eq_self st.user_rooms conn.user_id s2 hm2]
      cases han : any_row st.store conn.user_id rid with
      | none =>
        have hall : ∀ ur ∈ st.store.user_rooms,
            (ur.user_id == conn.user_id && ur.room_id == rid) = false := by
          intro ur hmem
          exact Bool.not_eq_true _ |>.mp (List.find?_eq_none.mp han ur hmem)
        rw [updateFirst_eq_self _ _ _ hall]
      | some ur0 => rfl

theorem leave_never_joined_witness :
    handle_leave_room true 9 1 (some 1) cexSt3
      = ({ cexSt3 with store := { cexSt3.store with user_rooms :=
            [{ user_id := 1, room_id := 1, joined_at := 0, left_at := some 9,
               is_active := false, can_send_messages := true,
               is_moderator := false }] } },
         [Event.userLeft 1 1, Event.roomLeft 1 1]) := by
  have h := leave_never_joined 9 1 1 (connOf 1 []) cexSt3
    (by unfold WFKeys; decide) rfl (by decide) (by decide) (by decide)
  rw [h]
  rfl

/-- C4 as stated fails on the code: at `cexSt3` (session 1 live, room 1
never joined by it) the handler emits `user_left`/`room_left` events and
flips the durable membership row to inactive, so the event set and the
durable rows do not stay unchanged. -/
theorem leave_never_joined_cex :
    (handle_leave_room true 9 1 (some 1) cexSt3).2 ≠ []
    ∧ (handle_leave_room true 9 1 (some 1) cexSt3).1.store.user_rooms
        ≠ cexSt3.store.user_rooms := by
  refine ⟨by decide, by decide⟩

/-- Concrete state: session 1 of user 1 is live inside room 1 (public,
active), the indexes record it, and the durable store holds the active
membership row. -/
def cexSt4 : ServerState :=
  { active_connections := [(1, connOf 1 [1])],
    room_users := fun r => if r = 1 then some [1] else none,
    user_rooms := fun u => if u = 1 then some [1] else none,
    store := { exStore with user_rooms :=
      [{ user_id := 1, room_id := 1, joined_at := 0, left_at := none,
         is_active := true, can_send_messages := true, is_moderator := false }] } }

/-- The in-memory effect of a join, reached before the durable write. -/
def joinMemState (sid rid : Nat) (conn : Conn) (s0 : List Nat)
    (st : ServerState) : ServerState :=
  { st with
    active_connections := updateA st.active_connections sid
      (fun c => { c with rooms := addElem rid c.rooms }),
    room_users := fset st.room_users rid
      (addElem conn.user_id ((st.room_users rid).getD [])),
    user_rooms := fset st.user_rooms conn.user_id (addElem rid s0) }

/-- C3 (amended): when the durable commit fails, the in-memory registry and
index state reached before the write stays in effect — for join and leave
it equals the in-memory state of the corresponding successful operation,
and for send the state is wholly unchanged — and the store is untouched;
but only the leave path is silent toward the client (it also skips its
normal `user_left`/`room_left` events), while the join and send paths DO
deliver a generic error event to the requesting session. -/
theorem persistence_failure_behavior (now sid rid : Nat) (conn : Conn)
    (room : RoomRec) (s0 : List Nat) (ur0 : UserRoomRow)
    (content mtype : String) (st : ServerState)
    (hconn : lookupA st.active_connections sid = some conn)
    (hroom : room_get st.store rid = some room)
    (hactive : room.is_active = true)
    (hpublic : room.is_public = true)
    (hentry : st.user_rooms conn.user_id = some s0)
    (hrow : any_row st.store conn.user_id rid = some ur0)
    (hcontent : pyStrip content ≠ "")
    (hin : rid ∈ conn.rooms)
    (hperm : ∀ ur, active_row st.store conn.user_id rid = some ur →
        ur.can_send_messages = true) :
    ((handle_join_room false now sid (some rid) st).2
        = [Event.error sid "Failed to join room"]
      ∧ (handle_join_room false now sid (some rid) st).1.store = st.store
      ∧ (handle_join_room false now sid (some rid) st).1
          = joinMemState sid rid conn s0 st
      ∧ (handle_join_room true now sid (some rid) st).1.active_connections
          = (joinMemState sid rid conn s0 st).active_connections
      ∧ (handle_join_room true now sid (some rid) st).1.room_users
          = (joinMemState sid rid conn s0 st).room_users
      ∧ (handle_join_room true now sid (some rid) st).1.user_rooms
          = (joinMemState sid rid conn s0 st).user_rooms)
    ∧ ((handle_send_message false now sid (some rid) content mtype st).1 = st
      ∧ (handle_send_message false now sid (some rid) content mtype st).2
          = [Event.error sid "Failed to send message"])
    ∧ ((handle_leave_room false now sid (some rid) st).2 = []
      ∧ (handle_leave_room false now sid (some rid) st).1.store = st.store
      ∧ (handle_leave_room false now sid (some rid) st).1.active_connections
          = (handle_leave_room true now sid (some rid) st).1.active_connections
      ∧ (handle_leave_room false now sid (some rid) st).1.room_users
          = (handle_leave_room true now sid (some rid) st).1.room_users
      ∧ (handle_leave_room false now sid (some rid) st).1.user_rooms
          = (handle_leave_room true now sid (some rid) st).1.user_rooms) := by
  have hsomeL : (lookupA st.active_connections sid).isSome := by rw [hconn]; rfl
  have hne : ¬ (pyStrip content == "") = true := by simpa using hcontent
  have hjF : handle_join_room false now sid (some rid) st
      = (joinMemState sid rid conn s0 st, [Event.error sid "Failed to join room"]) := by
    unfold handle_join_room
    simp [hconn, hroom, hactive, hpublic, hentry, joinMemState]
  have hjT : (handle_join_room true now sid (some rid) st).1
      = { joinMemState sid rid conn s0 st with
          store := upsert_join st.store conn.user_id rid now } := by
    unfold handle_join_room
    simp [hconn, hroom, hactive, hpublic, hentry, joinMemState]
  have hsF : handle_send_message false now sid (some rid) content mtype st
      = (st, [Event.error sid "Failed to send message"]) := by
    unfold handle_send_message
    simp only [hconn]
    simp only [hne, if_false, ite_false]
    simp only [hin, not_true, if_false, ite_false]
    cases har : active_row st.store conn.user_id rid with
    | none => rfl
    | some ur =>
      have hp := hperm ur har
      simp [hp, send_message_commit]
  refine ⟨⟨?_, ?_, ?_, ?_, ?_, ?_⟩, ⟨?_, ?_⟩, ⟨?_, ?_, ?_, ?_, ?_⟩⟩
  · rw [hjF]
  · rw [hjF]; rfl
  · rw [hjF]
  · rw [hjT]
  · rw [hjT]
  · rw [hjT]
  · rw [hsF]
  · rw [hsF]
  · show (if (lookupA st.active_connections sid).isSome then
        leave_room_internal false now sid rid st else (st, [])).2 = []
    rw [if_pos hsomeL]
    unfold leave_room_internal
    simp only [hconn, hrow]
    rfl
  · show (if (lookupA st.active_connections sid).isSome then
        leave_room_internal false now sid rid st else (st, [])).1.store = st.store
    rw [if_pos hsomeL]
    unfold leave_room_internal
    simp only [hconn, hrow]
    rfl
  · show (if (lookupA st.active_connections sid).isSome then
          leave_room_internal false now sid rid st else (st, [])).1.active_connections
        = (if (lookupA st.active_connections sid).isSome then
          leave_room_internal true now sid rid st else (st, [])).1.active_connections
    rw [if_pos hsomeL, if_pos hsomeL]
    unfold leave_room_internal
    simp only [hconn, hrow]
    rfl
  · show (if (lookupA st.active_connections sid).isSome then
          leave_room_internal false now sid rid st else (st, [])).1.room_users
        = (if (lookupA st.active_connections sid).isSome then
          leave_room_internal true now sid rid st else (st, [])).1.room_users
    rw [if_pos hsomeL, if_pos hsomeL]
    unfold leave_room_internal
    simp only [hconn, hrow]
    rfl
  · show (if (lookupA st.active_connections sid).isSome then
          leave_room_internal false now sid rid st else (st, [])).1.user_rooms
        = (if (lookupA st.active_connections sid).isSome then
          leave_room_internal true now sid rid st else (st, [])).1.user_rooms
    rw [if_pos hsomeL, if_pos hsomeL]
    unfold leave_room_internal
    simp only [hconn, hrow]
    rfl

theorem persistence_failure_behavior_witness :
    (handle_join_room false 4 1 (some 1) cexSt4).2
        = [Event.error 1 "Failed to join room"]
    ∧ (handle_join_room false 4 1 (some 1) cexSt4).1.store = cexSt4.store
    ∧ (handle_send_message false 4 1 (some 1) "hi" "text" cexSt4).2
        = [Event.error 1 "Failed to send message"]
    ∧ (handle_leave_room false 4 1 (some 1) cexSt4).2 = [] := by
  have h := persistence_failure_behavior 4 1 1 (connOf 1 [1])
    { id := 1, name := "general", is_public := true, is_active := true,
      max_users := 100 }
    [1]
    { user_id := 1, room_id := 1, joined_at := 0, left_at := none,
      is_active := true, can_send_messages := true, is_moderator := false }
    "hi" "text" cexSt4 rfl (by decide) rfl rfl rfl (by decide) (by decide)
    (by decide)
    (by
      intro ur h
      have hr : active_row cexSt4.store (connOf 1 [1]).user_id 1
          = some { user_id := 1, room_id := 1, joined_at := 0, left_at := none,
                   is_active := true, can_send_messages := true,
                   is_moderator := false } := by decide
      rw [hr] at h
      cases h
      rfl)
  exact ⟨h.1.1, h.1.2.1, h.2.1.2, h.2.2.1⟩

/-- C3 as stated fails on the code: a join whose durable write fails emits
an error event to the requesting client instead of staying silent. -/
theorem persistence_failure_cex :
    (handle_join_room false 4 1 (some 1) cexSt4).2 ≠ [] := by
  decide

/-- C5: when exactly one live connection has exceeded the 24-hour TTL, one
reaper sweep ends in the same state — connection registry, `room_users` and
`user_rooms` indexes, and durable store (hence persisted membership rows)
alike — as that session performing a voluntary disconnect. -/
theorem reaper_sweep_equals_disconnect (dbOk : Bool) (now sid : Nat)
    (st : ServerState)
    (h : (st.active_connections.filter
        (fun p => 86400 < now - p.2.connected_at)).map (fun p => p.1) = [sid]) :
    (cleanup_sweep dbOk now st).1 = (handle_disconnect dbOk now sid st).1 := by
  unfold cleanup_sweep
  rw [h]
  cases hc : lookupA st.active_connections sid with
  | none =>
    exfalso
    have hm : sid ∈ (st.active_connections.filter
        (fun p => 86400 < now - p.2.connected_at)).map (fun p => p.1) := by
      rw [h]
      exact List.mem_singleton.mpr rfl
    rcases List.mem_map.mp hm with ⟨p, hp, hps⟩
    have hpmem : p ∈ st.active_connections := List.mem_of_mem_filter hp
    have hfind : st.active_connections.find? (fun q => q.1 == sid) = none := by
      have := congrArg Option.isNone hc
      unfold lookupA at this
      cases hfe : st.active_connections.find? (fun q => q.1 == sid) with
      | none => rfl
      | some q => rw [hfe] at this; simp at this
    have := List.find?_eq_none.mp hfind p hpmem
    simp [hps] at this
  | some conn =>
    unfold reap_all handle_disconnect
    simp only [hc]
    rfl

theorem reaper_sweep_equals_disconnect_witness :
    (cleanup_sweep true 100000 cexSt4).1 = (handle_disconnect true 100000 1 cexSt4).1 :=
  reaper_sweep_equals_disconnect true 100000 1 cexSt4 (by decide)

/-- The addressee of an event, when it is a single-session delivery. -/
def eventTarget : Event → Option Nat
  | .error sid _ => some sid
  | .connected sid _ => some sid
  | .availableRooms sid _ => some sid
  | .userJoined _ _ => none
  | .roomJoined sid _ _ => some sid
  | .recentMessages sid _ _ => some sid
  | .userLeft _ _ => none
  | .roomLeft sid _ => some sid
  | .newMessage _ _ _ _ => none

/-- C9: the per-user pushes `_send_available_rooms` and
`_send_recent_messages` each emit at most one event, and every event they
emit is addressed to the first session of the target user in
`active_connections` iteration order — so at most one live session of the
user receives the payload, even when the user has several. -/
theorem per_user_push_single_session (st : ServerState) (rid uid : Nat) :
    (send_available_rooms uid st).length ≤ 1
    ∧ (send_recent_messages rid uid st 50).length ≤ 1
    ∧ (∀ e, e ∈ send_available_rooms uid st ++ send_recent_messages rid uid st 50 →
        ∃ p, st.active_connections.find? (fun q => q.2.user_id == uid) = some p
          ∧ eventTarget e = some p.1) := by
  unfold send_available_rooms send_recent_messages
  cases hf : st.active_connections.find? (fun q => q.2.user_id == uid) with
  | none => exact ⟨by simp, by simp, by intro e he; simp at he⟩
  | some p =>
    refine ⟨by simp, by simp, ?_⟩
    intro e he
    rcases List.mem_append.mp he with h1 | h1
    · rcases List.mem_singleton.mp h1 with rfl
      exact ⟨p, rfl, rfl⟩
    · rcases List.mem_singleton.mp h1 with rfl
      exact ⟨p, rfl, rfl⟩

/-- Concrete state: user 1 holds two simultaneous live sessions 1 and 2. -/
def cexSt5 : ServerState :=
  { active_connections := [(1, connOf 1 []), (2, connOf 1 [])],
    room_users := fun _ => none,
    user_rooms := fun u => if u = 1 then some [] else none,
    store := exStore }

theorem per_user_push_single_session_witness :
    ∃ p, cexSt5.active_connections.find? (fun q => q.2.user_id == 1) = some p
      ∧ eventTarget (Event.availableRooms 1 [1]) = some p.1 :=
  (per_user_push_single_session cexSt5 1 1).2.2 (Event.availableRooms 1 [1])
    (by decide)

theorem mem_insertByCreatedDesc {a m : Msg} {l : List Msg} :
    a ∈ insertByCreatedDesc m l ↔ a = m ∨ a ∈ l := by
  induction l with
  | nil => simp [insertByCreatedDesc]
  | cons x xs ih =>
    unfold insertByCreatedDesc
    by_cases h : x.created_at ≤ m.created_at
    · simp [h]
    · simp only [if_neg h, List.mem_cons, ih]
      tauto

theorem pairwise_insertByCreatedDesc {m : Msg} {l : List Msg}
    (h : l.Pairwise (fun a b => b.created_at ≤ a.created_at)) :
    (insertByCreatedDesc m l).Pairwise
      (fun a b => b.created_at ≤ a.created_at) := by
  induction l with
  | nil => simp [insertByCreatedDesc]
  | cons x xs ih =>
    unfold insertByCreatedDesc
    by_cases hx : x.created_at ≤ m.created_at
    · rw [if_pos hx]
      refine List.Pairwise.cons ?_ h
      intro b hb
      rcases List.mem_cons.mp hb with rfl | hb
      · exact hx
      · exact le_trans ((List.pairwise_cons.mp h).1 b hb) hx
    · rw [if_neg hx]
      have hxle : ∀ b ∈ insertByCreatedDesc m xs, b.created_at ≤ x.created_at := by
        intro b hb
        rcases mem_insertByCreatedDesc.mp hb with rfl | hb
        · exact le_of_not_le hx
        · exact (List.pairwise_cons.mp h).1 b hb
      exact List.Pairwise.cons hxle (ih (List.pairwise_cons.mp h).2)

theorem mem_sortByCreatedDesc {a : Msg} {l : List Msg} :
    a ∈ sortByCreatedDesc l ↔ a ∈ l := by
  induction l with
  | nil => simp [sortByCreatedDesc]
  | cons x xs ih =>
    unfold sortByCreatedDesc
    rw [mem_insertByCreatedDesc, ih, List.mem_cons]

theorem pairwise_sortByCreatedDesc (l : List Msg) :
    (sortByCreatedDesc l).Pairwise (fun a b => b.created_at ≤ a.created_at) := by
  induction l with
  | nil => exact List.Pairwise.nil
  | cons x xs ih => exact pairwise_insertByCreatedDesc ih

/-- C10: the recent-messages payload pushed on join holds at most 50
messages, all of them non-deleted messages of the requested room, in
chronological (oldest-first) order of `created_at`. -/
theorem recent_messages_payload_spec (store : Store) (rid : Nat) :
    (recent_messages_query store rid 50).length ≤ 50
    ∧ (∀ m ∈ recent_messages_query store rid 50,
        m.room_id = rid ∧ m.is_deleted = false)
    ∧ (recent_messages_query store rid 50).Pairwise
        (fun a b => a.created_at ≤ b.created_at) := by
  refine ⟨?_, ?_, ?_⟩
  · rw [recent_messages_query, List.length_reverse]
    exact List.length_take_le 50 _
  · intro m hm
    rw [recent_messages_query, List.mem_reverse] at hm
    have hm2 := List.take_subset 50 _ hm
    rw [mem_sortByCreatedDesc] at hm2
    have := List.mem_filter.mp hm2
    have hp := this.2
    simp only [Bool.and_eq_true, beq_iff_eq, Bool.not_eq_true'] at hp
    exact hp
  · rw [recent_messages_query, List.pairwise_reverse]
    exact ((pairwise_sortByCreatedDesc _).sublist (List.take_sublist 50 _)).imp
      (fun h => h)

/-- The store of `exStore` extended with four messages used to instantiate
the recent-messages theorem. -/
def exStoreMsgs : Store :=
  { exStore with messages :=
      [ { id := 0, user_id := 1, room_id := 1, content := "a",
          message_type := "text", created_at := 5, is_edited := false,
          is_deleted := false },
        { id := 1, user_id := 1, room_id := 1, content := "b",
          message_type := "text", created_at := 2, is_edited := false,
          is_deleted := true },
        { id := 2, user_id := 1, room_id := 2, content := "c",
          message_type := "text", created_at := 9, is_edited := false,
          is_deleted := false },
        { id := 3, user_id := 1, room_id := 1, content := "d",
          message_type := "text", created_at := 1, is_edited := false,
          is_deleted := false } ] }

theorem recent_messages_payload_spec_witness :
    (recent_messages_query exStoreMsgs 1 50).length ≤ 50
    ∧ ({ id := 0, user_id := 1, room_id := 1, content := "a",
         message_type := "text", created_at := 5, is_edited := false,
         is_deleted := false : Msg }.room_id = 1
       ∧ ({ id := 0, user_id := 1, room_id := 1, content := "a",
            message_type := "text", created_at := 5, is_edited := false,
            is_deleted := false : Msg }.is_deleted = false)) :=
  ⟨(recent_messages_payload_spec exStoreMsgs 1).1,
   (recent_messages_payload_spec exStoreMsgs 1).2.1 _ (by decide)⟩

theorem addElem_idem (x : Nat) (l : List Nat) :
    addElem x (addElem x l) = addElem x l := by
  have hx : x ∈ addElem x l := mem_addElem.mpr (Or.inl rfl)
  show (if x ∈ addElem x l then addElem x l else x :: addElem x l) = addElem x l
  rw [if_pos hx]

theorem rooms_upsert_join (store : Store) (uid rid now : Nat) :
    (upsert_join store uid rid now).rooms = store.rooms := by
  unfold upsert_join
  split <;> rfl

theorem find?_active_updateFirst (uid rid : Nat) (rows : List UserRoomRow)
    (h : (rows.find? (fun ur => ur.user_id == uid && ur.room_id == rid)).isSome) :
    ((updateFirst (fun ur => ur.user_id == uid && ur.room_id == rid)
        (fun ur => { ur with is_active := true, left_at := none }) rows).find?
      (fun ur => ur.user_id == uid && ur.room_id == rid && ur.is_active)).isSome := by
  induction rows with
  | nil => simp [List.find?] at h
  | cons r rest ih =>
    by_cases hp : (r.user_id == uid && r.room_id == rid) = true
    · rw [updateFirst, if_pos hp]
      have hb : (({ r with is_active := true, left_at := none } : UserRoomRow).user_id == uid
          && ({ r with is_active := true, left_at := none } : UserRoomRow).room_id == rid
          && ({ r with is_active := true, left_at := none } : UserRoomRow).is_active) = true := by
        show (r.user_id == uid && r.room_id == rid && true) = true
        rw [Bool.and_true]
        exact hp
      simp [List.find?_cons, hb]
    · rw [updateFirst, if_neg hp]
      have hpf : (r.user_id == uid && r.room_id == rid) = false :=
        Bool.not_eq_true _ |>.mp hp
      have hb2 : (r.user_id == uid && r.room_id == rid && r.is_active) = false := by
        rw [hpf, Bool.false_and]
      have hh : (rest.find? (fun ur => ur.user_id == uid && ur.room_id == rid)).isSome := by
        rw [List.find?_cons] at h
        simp only [hpf] at h
        exact h
      have := ih hh
      simp only [List.find?_cons, hb2]
      exact this

theorem active_row_upsert_join (store : Store) (uid rid now : Nat) :
    (active_row (upsert_join store uid rid now) uid rid).isSome := by
  by_cases h : (any_row store uid rid).isSome
  · show ((upsert_join store uid rid now).user_rooms.find? _).isSome
    unfold upsert_join
    rw [if_pos h]
    exact find?_active_updateFirst uid rid store.user_rooms h
  · show ((upsert_join store uid rid now).user_rooms.find? _).isSome
    unfold upsert_join
    rw [if_neg h]
    have hnone : store.user_rooms.find?
        (fun ur => ur.user_id == uid && ur.room_id == rid) = none := by
      cases hf : store.user_rooms.find?
          (fun ur => ur.user_id == uid && ur.room_id == rid) with
      | none => rfl
      | some v => exact absurd (by unfold any_row; rw [hf]; rfl) h
    have h1 : store.user_rooms.find?
        (fun ur => ur.user_id == uid && ur.room_id == rid && ur.is_active) = none := by
      refine List.find?_eq_none.mpr ?_
      intro x hx
      have := List.find?_eq_none.mp hnone x hx
      intro hc
      apply this
      rw [Bool.and_eq_true] at hc ⊢
      rw [Bool.and_eq_true] at hc
      exact hc.1
    simp [List.find?_append, h1, List.find?]

/-- The post-state of a successful join (`handle_join_room` reaching its
commit), as a function of whether the durable commit succeeds. -/
theorem handle_join_room_shape (dbOk : Bool) (now sid rid : Nat) (conn : Conn)
    (room : RoomRec) (s0 : List Nat) (st : ServerState)
    (hconn : lookupA st.active_connections sid = some conn)
    (hroom : room_get st.store rid = some room)
    (hactive : room.is_active = true)
    (haccess : room.is_public = true ∨ (active_row st.store conn.user_id rid).isSome)
    (hentry : st.user_rooms conn.user_id = some s0) :
    (handle_join_room dbOk now sid (some rid) st).1
      = { joinMemState sid rid conn s0 st with
          store := if dbOk then upsert_join st.store conn.user_id rid now
                   else st.store } := by
  have hacc : (!room.is_public
      && (active_row st.store conn.user_id rid).isNone) = false := by
    rcases haccess with hp | hs
    · rw [hp]; rfl
    · cases ho : active_row st.store conn.user_id rid with
      | none => rw [ho] at hs; simp at hs
      | some v => simp
  cases dbOk with
  | false =>
    unfold handle_join_room
    simp [hconn, hroom, hactive, hacc, hentry, joinMemState]
  | true =>
    unfold handle_join_room
    simp [hconn, hroom, hactive, hacc, hentry, joinMemState]

/-- C7: joining the same accessible, active room twice from the same live
session with no intervening leave leaves the session's room set,
`room_users[room_id]` and `user_rooms[user_id]` exactly as they were after
the first join. -/
theorem join_twice_idempotent (dbOk : Bool) (now1 now2 sid rid : Nat)
    (conn : Conn) (room : RoomRec) (s0 : List Nat) (st : ServerState)
    (hconn : lookupA st.active_connections sid = some conn)
    (hroom : room_get st.store rid = some room)
    (hactive : room.is_active = true)
    (haccess : room.is_public = true ∨ (active_row st.store conn.user_id rid).isSome)
    (hentry : st.user_rooms conn.user_id = some s0) :
    (∃ c1 c2, lookupA (handle_join_room dbOk now1 sid (some rid) st).1.active_connections sid
          = some c1
      ∧ lookupA (handle_join_room dbOk now2 sid (some rid)
            (handle_join_room dbOk now1 sid (some rid) st).1).1.active_connections sid
          = some c2
      ∧ c2.rooms = c1.rooms ∧ c2.user_id = c1.user_id)
    ∧ (handle_join_room dbOk now2 sid (some rid)
          (handle_join_room dbOk now1 sid (some rid) st).1).1.room_users rid
        = (handle_join_room dbOk now1 sid (some rid) st).1.room_users rid
    ∧ (handle_join_room dbOk now2 sid (some rid)
          (handle_join_room dbOk now1 sid (some rid) st).1).1.user_rooms conn.user_id
        = (handle_join_room dbOk now1 sid (some rid) st).1.user_rooms conn.user_id := by
  have h1 := handle_join_room_shape dbOk now1 sid rid conn room s0 st
    hconn hroom hactive haccess hentry
  have hconn1 : lookupA (handle_join_room dbOk now1 sid (some rid) st).1.active_connections sid
      = some { conn with rooms := addElem rid conn.rooms } := by
    rw [h1]
    show lookupA (updateA st.active_connections sid
      (fun c => { c with rooms := addElem rid c.rooms })) sid = _
    rw [lookupA_updateA, if_pos rfl, hconn]
    rfl
  have hroom1 : room_get (handle_join_room dbOk now1 sid (some rid) st).1.store rid
      = some room := by
    rw [h1]
    show room_get (if dbOk then upsert_join st.store conn.user_id rid now1
      else st.store) rid = some room
    cases dbOk with
    | false => exact hroom
    | true =>
      show room_get (upsert_join st.store conn.user_id rid now1) rid = some room
      unfold room_get
      rw [rooms_upsert_join]
      exact hroom
  have haccess1 : room.is_public = true
      ∨ (active_row (handle_join_room dbOk now1 sid (some rid) st).1.store
          ({ conn with rooms := addElem rid conn.rooms } : Conn).user_id rid).isSome := by
    rcases haccess with hp | hs
    · exact Or.inl hp
    · right
      rw [h1]
      show (active_row (if dbOk then upsert_join st.store conn.user_id rid now1
        else st.store) conn.user_id rid).isSome
      cases dbOk with
      | false => exact hs
      | true => exact active_row_upsert_join st.store conn.user_id rid now1
  have hentry1 : (handle_join_room dbOk now1 sid (some rid) st).1.user_rooms
      ({ conn with rooms := addElem rid conn.rooms } : Conn).user_id
        = some (addElem rid s0) := by
    rw [h1]
    show fset st.user_rooms conn.user_id (addElem rid s0) conn.user_id = _
    rw [fset_eval, if_pos rfl]
  have h2 := handle_join_room_shape dbOk now2 sid rid
    { conn with rooms := addElem rid conn.rooms } room (addElem rid s0)
    (handle_join_room dbOk now1 sid (some rid) st).1
    hconn1 hroom1 hactive haccess1 hentry1
  refine ⟨⟨{ conn with rooms := addElem rid conn.rooms },
    { conn with rooms := addElem rid (addElem rid conn.rooms) }, hconn1, ?_, ?_, rfl⟩,
    ?_, ?_⟩
  · rw [h2]
    show lookupA (updateA (handle_join_room dbOk now1 sid (some rid) st).1.active_connections
      sid (fun c => { c with rooms := addElem rid c.rooms })) sid = _
    rw [lookupA_updateA, if_pos rfl, hconn1]
    rfl
  · show addElem rid (addElem rid conn.rooms) = addElem rid conn.rooms
    exact addElem_idem rid conn.rooms
  · rw [h2, h1]
    simp [joinMemState, fset_eval, addElem_idem]
  · rw [h2, h1]
    simp [joinMemState, fset_eval, addElem_idem]

theorem join_twice_idempotent_witness :
    (∃ c1 c2, lookupA (handle_join_room true 0 1 (some 1) cexSt1).1.active_connections 1
          = some c1
      ∧ lookupA (handle_join_room true 0 1 (some 1)
            (handle_join_room true 0 1 (some 1) cexSt1).1).1.active_connections 1
          = some c2
      ∧ c2.rooms = c1.rooms ∧ c2.user_id = c1.user_id)
    ∧ (handle_join_room true 0 1 (some 1)
          (handle_join_room true 0 1 (some 1) cexSt1).1).1.room_users 1
        = (handle_join_room true 0 1 (some 1) cexSt1).1.room_users 1
    ∧ (handle_join_room true 0 1 (some 1)
          (handle_join_room true 0 1 (some 1) cexSt1).1).1.user_rooms 1
        = (handle_join_room true 0 1 (some 1) cexSt1).1.user_rooms 1 :=
  join_twice_idempotent true 0 0 1 1 (connOf 1 [])
    { id := 1, name := "general", is_public := true, is_active := true,
      max_users := 100 }
    [] cexSt1 rfl (by decide) rfl (Or.inl rfl) rfl

/-- A legal trace in which user 1 opens two sessions, joins room 1 from
both, then leaves it from session 1 only. -/
def cexOps : List Op :=
  [ Op.connect 0 1 (some "tok") "ip",
    Op.connect 0 2 (some "tok") "ip",
    Op.join true 0 1 (some 1),
    Op.join true 0 2 (some 1),
    Op.leave true 0 1 (some 1) ]

/-- C2 as stated fails on the code: after `cexOps`, session 2 of user 1 is
still live with room 1 in its joined set, yet `room_users[1]` no longer
contains user 1 — the leave from session 1 discarded the user id although
another of their sessions remained in the room. -/
theorem room_index_equality_cex :
    legal cexOps (initState exStore) = true
    ∧ (∃ p ∈ (applyOps cexOps (initState exStore)).active_connections,
        p.2.user_id = 1 ∧ 1 ∈ p.2.rooms)
    ∧ 1 ∉ memIndex (applyOps cexOps (initState exStore)) 1 := by
  refine ⟨by decide, by decide, by decide⟩

theorem mem_of_lookupA_some {α : Type} {l : List (Nat × α)} {k : Nat} {v : α}
    (h : lookupA l k = some v) : (k, v) ∈ l := by
  unfold lookupA at h
  cases hf : l.find? (fun p => p.1 == k) with
  | none => rw [hf] at h; cases h
  | some q =>
    rw [hf] at h
    have hq : q ∈ l := List.mem_of_find?_eq_some hf
    have hqk := List.find?_some hf
    have hk : q.1 = k := by simpa using hqk
    have hv : q.2 = v := Option.some.inj h
    have : q = (k, v) := by
      cases q
      simp only at hk hv
      rw [hk, hv]
    rw [← this]
    exact hq

theorem lookupA_eq_none_iff {α : Type} {l : List (Nat × α)} {k : Nat} :
    lookupA l k = none ↔ ∀ p ∈ l, p.1 ≠ k := by
  unfold lookupA
  cases hf : l.find? (fun p => p.1 == k) with
  | none =>
    simp only [Option.map_none']
    constructor
    · intro _ p hp
      have := List.find?_eq_none.mp hf p hp
      simpa using this
    · intro _; trivial
  | some q =>
    simp only [Option.map_some']
    constructor
    · intro h; cases h
    · intro h
      have hq : q ∈ l := List.mem_of_find?_eq_some hf
      have hqk := List.find?_some hf
      exact absurd (by simpa using hqk) (h q hq)

theorem insertA_of_none {α : Type} {l : List (Nat × α)} {k : Nat} (v : α)
    (h : lookupA l k = none) : insertA l k v = l ++ [(k, v)] := by
  unfold insertA
  have : l.find? (fun p => p.1 == k) = none := by
    unfold lookupA at h
    cases hf : l.find? (fun p => p.1 == k) with
    | none => rfl
    | some q => rw [hf] at h; cases h
  rw [this]
  rfl

theorem keys_insertA_of_none {α : Type} {l : List (Nat × α)} {k : Nat} (v : α)
    (h : lookupA l k = none) :
    (insertA l k v).map (fun p => p.1) = l.map (fun p => p.1) ++ [k] := by
  rw [insertA_of_none v h, List.map_append]
  rfl

theorem nodup_keys_insertA {α : Type} {l : List (Nat × α)} {k : Nat} (v : α)
    (h : lookupA l k = none) (hnd : (l.map (fun p => p.1)).Nodup) :
    ((insertA l k v).map (fun p => p.1)).Nodup := by
  rw [keys_insertA_of_none v h]
  rw [List.nodup_append]
  refine ⟨hnd, List.nodup_singleton k, ?_⟩
  intro a ha hb
  rcases List.mem_singleton.mp hb with rfl
  rcases List.mem_map.mp ha with ⟨p, hp, hpk⟩
  exact (lookupA_eq_none_iff.mp h p hp) hpk

theorem nodup_keys_eraseA {α : Type} {l : List (Nat × α)} {k : Nat}
    (hnd : (l.map (fun p => p.1)).Nodup) :
    ((eraseA l k).map (fun p => p.1)).Nodup :=
  List.Nodup.sublist (List.Sublist.map _ (List.filter_sublist l)) hnd

theorem nodup_keys_updateA {α : Type} {l : List (Nat × α)} {k : Nat} {f : α → α}
    (hnd : (l.map (fun p => p.1)).Nodup) :
    ((updateA l k f).map (fun p => p.1)).Nodup := by
  rw [keys_updateA]
  exact hnd

theorem mem_eraseA {α : Type} {l : List (Nat × α)} {k : Nat} {p : Nat × α} :
    p ∈ eraseA l k ↔ p ∈ l ∧ p.1 ≠ k := by
  unfold eraseA
  rw [List.mem_filter]
  simp

/-- The registry and room index of the state left by `_leave_room_internal`,
independent of the durable branch taken. -/
theorem leave_room_internal_state (dbOk : Bool) (now sid rid : Nat)
    (st : ServerState) (conn : Conn)
    (hc : lookupA st.active_connections sid = some conn) :
    (leave_room_internal dbOk now sid rid st).1.active_connections
        = updateA st.active_connections sid
            (fun c => { c with rooms := delElem rid c.rooms })
    ∧ (leave_room_internal dbOk now sid rid st).1.room_users
        = (match st.room_users rid with
           | none => st.room_users
           | some s => fset st.room_users rid (delElem conn.user_id s)) := by
  unfold leave_room_internal
  simp only [hc]
  cases han : any_row st.store conn.user_id rid with
  | none => exact ⟨rfl, rfl⟩
  | some ur0 =>
    cases dbOk with
    | false => exact ⟨rfl, rfl⟩
    | true => exact ⟨rfl, rfl⟩

theorem wfkeys_of_fields (st1 st2 : ServerState)
    (ha : st2.active_connections = st1.active_connections)
    (h : WFKeys st1) : WFKeys st2 := by
  unfold WFKeys at *
  rw [ha]
  exact h

theorem idxsound_of_fields (st1 st2 : ServerState)
    (ha : st2.active_connections = st1.active_connections)
    (hr : st2.room_users = st1.room_users)
    (h : IdxSound st1) : IdxSound st2 := by
  intro r u hu
  have hu1 : u ∈ memIndex st1 r := by
    unfold memIndex at hu ⊢
    rw [← hr]
    exact hu
  rcases h r u hu1 with ⟨p, hp, h1, h2⟩
  exact ⟨p, by rw [ha]; exact hp, h1, h2⟩

theorem mem_updateA_self {α : Type} {l : List (Nat × α)} {p : Nat × α}
    (hp : p ∈ l) (k : Nat) (f : α → α) (hk : (p.1 == k) = true) :
    (p.1, f p.2) ∈ updateA l k f := by
  unfold updateA
  refine List.mem_map.mpr ⟨p, hp, ?_⟩
  show (if (p.1 == k) = true then (p.1, f p.2) else p) = (p.1, f p.2)
  rw [if_pos hk]

theorem mem_updateA_other {α : Type} {l : List (Nat × α)} {p : Nat × α}
    (hp : p ∈ l) (k : Nat) (f : α → α) (hk : ¬ (p.1 == k) = true) :
    p ∈ updateA l k f := by
  unfold updateA
  refine List.mem_map.mpr ⟨p, hp, ?_⟩
  show (if (p.1 == k) = true then (p.1, f p.2) else p) = p
  rw [if_neg hk]

/-- The in-memory commit of a join preserves soundness of the room index. -/
theorem idxsound_join_mem (st : ServerState) (sid rid : Nat) (conn : Conn)
    (hc : lookupA st.active_connections sid = some conn) (hS : IdxSound st) :
    IdxSound { st with
      active_connections := updateA st.active_connections sid
        (fun c => { c with rooms := addElem rid c.rooms }),
      room_users := fset st.room_users rid
        (addElem conn.user_id ((st.room_users rid).getD [])) } := by
  intro r u hu
  have hu' : u ∈ ((if r = rid
      then some (addElem conn.user_id ((st.room_users rid).getD []))
      else st.room_users r)).getD [] := hu
  by_cases hr : r = rid
  · rw [if_pos hr, Option.getD_some] at hu'
    rcases mem_addElem.mp hu' with rfl | hold
    · refine ⟨(sid, { conn with rooms := addElem rid conn.rooms }), ?_, rfl, ?_⟩
      · exact mem_updateA_self (mem_of_lookupA_some hc) sid
            (fun c => { c with rooms := addElem rid c.rooms }) (by simp)
      · subst hr
        exact mem_addElem.mpr (Or.inl rfl)
    · rcases hS rid u hold with ⟨p, hp, hup, hrp⟩
      by_cases hps : (p.1 == sid) = true
      · refine ⟨(p.1, { p.2 with rooms := addElem rid p.2.rooms }), ?_, hup, ?_⟩
        · exact mem_updateA_self hp sid (fun c => { c with rooms := addElem rid c.rooms }) hps
        · subst hr
          exact mem_addElem.mpr (Or.inl rfl)
      · refine ⟨p, mem_updateA_other hp sid (fun c => { c with rooms := addElem rid c.rooms }) hps, hup, ?_⟩
        subst hr
        exact hrp
  · rw [if_neg hr] at hu'
    rcases hS r u hu' with ⟨p, hp, hup, hrp⟩
    by_cases hps : (p.1 == sid) = true
    · exact ⟨(p.1, { p.2 with rooms := addElem rid p.2.rooms }),
        mem_updateA_self hp sid (fun c => { c with rooms := addElem rid c.rooms }) hps, hup, mem_addElem.mpr (Or.inr hrp)⟩
    · exact ⟨p, mem_updateA_other hp sid (fun c => { c with rooms := addElem rid c.rooms }) hps, hup, hrp⟩

/-- The in-memory part of a leave preserves soundness of the room index. -/
theorem idxsound_leave_mem (st : ServerState) (sid rid : Nat) (conn : Conn)
    (hWF : WFKeys st)
    (hc : lookupA st.active_connections sid = some conn) (hS : IdxSound st) :
    IdxSound { st with
      active_connections := updateA st.active_connections sid
        (fun c => { c with rooms := delElem rid c.rooms }),
      room_users := (match st.room_users rid with
          | none => st.room_users
          | some s => fset st.room_users rid (delElem conn.user_id s)) } := by
  intro r u hu
  cases hm : st.room_users rid with
  | none =>
    have hu' : u ∈ (st.room_users r).getD [] := by
      have hx : u ∈ ((match st.room_users rid with
          | none => st.room_users
          | some s => fset st.room_users rid (delElem conn.user_id s)) r).getD [] := hu
      rw [hm] at hx
      exact hx
    have hrne : r ≠ rid := by
      intro he
      rw [he, hm] at hu'
      simp at hu'
    rcases hS r u hu' with ⟨p, hp, hup, hrp⟩
    by_cases hps : (p.1 == sid) = true
    · exact ⟨(p.1, { p.2 with rooms := delElem rid p.2.rooms }),
        mem_updateA_self hp sid (fun c => { c with rooms := delElem rid c.rooms }) hps, hup, mem_delElem.mpr ⟨hrp, hrne⟩⟩
    · exact ⟨p, mem_updateA_other hp sid (fun c => { c with rooms := delElem rid c.rooms }) hps, hup, hrp⟩
  | some s =>
    have hu' : u ∈ ((if r = rid then some (delElem conn.user_id s)
        else st.room_users r)).getD [] := by
      have hx : u ∈ ((match st.room_users rid with
          | none => st.room_users
          | some s => fset st.room_users rid (delElem conn.user_id s)) r).getD [] := hu
      rw [hm] at hx
      exact hx
    by_cases hr : r = rid
    · rw [if_pos hr, Option.getD_some] at hu'
      rcases mem_delElem.mp hu' with ⟨hin, hne⟩
      have hin' : u ∈ memIndex st rid := by
        unfold memIndex
        rw [hm]
        exact hin
      rcases hS rid u hin' with ⟨p, hp, hup, hrp⟩
      by_cases hps : (p.1 == sid) = true
      · exfalso
        have hp1 : p.1 = sid := by simpa using hps
        have hlp := lookupA_of_mem_nodup hWF hp
        rw [hp1] at hlp
        have hpc : p.2 = conn := Option.some.inj (hlp.symm.trans hc)
        exact hne (by rw [← hup, hpc])
      · refine ⟨p, mem_updateA_other hp sid (fun c => { c with rooms := delElem rid c.rooms }) hps, hup, ?_⟩
        subst hr
        exact hrp
    · rw [if_neg hr] at hu'
      rcases hS r u hu' with ⟨p, hp, hup, hrp⟩
      by_cases hps : (p.1 == sid) = true
      · exact ⟨(p.1, { p.2 with rooms := delElem rid p.2.rooms }),
          mem_updateA_self hp sid (fun c => { c with rooms := delElem rid c.rooms }) hps, hup, mem_delElem.mpr ⟨hrp, hr⟩⟩
      · exact ⟨p, mem_updateA_other hp sid (fun c => { c with rooms := delElem rid c.rooms }) hps, hup, hrp⟩

theorem inv_leave_room_internal (dbOk : Bool) (now sid rid : Nat)
    (st : ServerState) (hWF : WFKeys st) (hS : IdxSound st) :
    WFKeys (leave_room_internal dbOk now sid rid st).1
    ∧ IdxSound (leave_room_internal dbOk now sid rid st).1 := by
  cases hc : lookupA st.active_connections sid with
  | none =>
    have he : (leave_room_internal dbOk now sid rid st).1 = st := by
      unfold leave_room_internal
      simp only [hc]
    rw [he]
    exact ⟨hWF, hS⟩
  | some conn =>
    obtain ⟨ha, hr⟩ := leave_room_internal_state dbOk now sid rid st conn hc
    constructor
    · unfold WFKeys
      rw [ha]
      exact nodup_keys_updateA hWF
    · exact idxsound_of_fields _ _ ha hr
        (idxsound_leave_mem st sid rid conn hWF hc hS)

theorem inv_leave_all (dbOk : Bool) (now sid : Nat) (L : List Nat) :
    ∀ st : ServerState, WFKeys st → IdxSound st →
      WFKeys (leave_all dbOk now sid L st).1
      ∧ IdxSound (leave_all dbOk now sid L st).1 := by
  induction L with
  | nil => intro st hWF hS; exact ⟨hWF, hS⟩
  | cons r rs ih =>
    intro st hWF hS
    obtain ⟨hW1, hS1⟩ := inv_leave_room_internal dbOk now sid r st hWF hS
    exact ih (leave_room_internal dbOk now sid r st).1 hW1 hS1

theorem lookupA_leave_all (dbOk : Bool) (now sid : Nat) (L : List Nat) :
    ∀ (st : ServerState) (conn : Conn),
      lookupA st.active_connections sid = some conn →
      ∃ c, lookupA (leave_all dbOk now sid L st).1.active_connections sid = some c
        ∧ c.user_id = conn.user_id
        ∧ ∀ r, r ∈ c.rooms ↔ (r ∈ conn.rooms ∧ r ∉ L) := by
  induction L with
  | nil =>
    intro st conn hc
    exact ⟨conn, hc, rfl, by intro r; simp⟩
  | cons r0 rs ih =>
    intro st conn hc
    have ha := (leave_room_internal_state dbOk now sid r0 st conn hc).1
    have hc1 : lookupA (leave_room_internal dbOk now sid r0 st).1.active_connections sid
        = some { conn with rooms := delElem r0 conn.rooms } := by
      rw [ha, lookupA_updateA, if_pos rfl, hc]
      rfl
    rcases ih (leave_room_internal dbOk now sid r0 st).1 _ hc1 with ⟨c, hcl, hcu, hcr⟩
    refine ⟨c, hcl, hcu, ?_⟩
    intro r
    rw [hcr r, mem_delElem, List.mem_cons]
    constructor
    · rintro ⟨⟨h1, h2⟩, h3⟩
      exact ⟨h1, fun hor => hor.elim h2 h3⟩
    · rintro ⟨h1, h2⟩
      exact ⟨⟨h1, fun he => h2 (Or.inl he)⟩, fun hm => h2 (Or.inr hm)⟩

/-- Removing a session whose room set is empty after its rooms were all
left preserves both invariants. -/
theorem inv_erase_after_leave_all (dbOk : Bool) (now sid : Nat)
    (st : ServerState) (conn : Conn) (hWF : WFKeys st) (hS : IdxSound st)
    (hc : lookupA st.active_connections sid = some conn) :
    WFKeys { (leave_all dbOk now sid conn.rooms st).1 with
        active_connections :=
          eraseA (leave_all dbOk now sid conn.rooms st).1.active_connections sid }
    ∧ IdxSound { (leave_all dbOk now sid conn.rooms st).1 with
        active_connections :=
          eraseA (leave_all dbOk now sid conn.rooms st).1.active_connections sid } := by
  obtain ⟨hW1, hS1⟩ := inv_leave_all dbOk now sid conn.rooms st hWF hS
  obtain ⟨c, hcl, hcu, hcr⟩ := lookupA_leave_all dbOk now sid conn.rooms st conn hc
  constructor
  · unfold WFKeys
    exact nodup_keys_eraseA hW1
  · intro r u hu
    have hu1 : u ∈ memIndex (leave_all dbOk now sid conn.rooms st).1 r := hu
    rcases hS1 r u hu1 with ⟨p, hp, hup, hrp⟩
    by_cases hps : (p.1 == sid) = true
    · exfalso
      have hp1 : p.1 = sid := by simpa using hps
      have hlp := lookupA_of_mem_nodup hW1 hp
      rw [hp1] at hlp
      have hpc : p.2 = c := Option.some.inj (hlp.symm.trans hcl)
      rcases (hcr r).mp (hpc ▸ hrp) with ⟨hin, hout⟩
      exact hout hin
    · refine ⟨p, ?_, hup, hrp⟩
      exact mem_eraseA.mpr ⟨hp, by simpa using hps⟩

theorem inv_handle_disconnect (dbOk : Bool) (now sid : Nat)
    (st : ServerState) (hWF : WFKeys st) (hS : IdxSound st) :
    WFKeys (handle_disconnect dbOk now sid st).1
    ∧ IdxSound (handle_disconnect dbOk now sid st).1 := by
  cases hc : lookupA st.active_connections sid with
  | none =>
    have he : (handle_disconnect dbOk now sid st).1 = st := by
      unfold handle_disconnect
      simp only [hc]
    rw [he]
    exact ⟨hWF, hS⟩
  | some conn =>
    have he : (handle_disconnect dbOk now sid st).1
        = { (leave_all dbOk now sid conn.rooms st).1 with
            active_connections :=
              eraseA (leave_all dbOk now sid conn.rooms st).1.active_connections sid } := by
      unfold handle_disconnect
      simp only [hc]
    rw [he]
    exact inv_erase_after_leave_all dbOk now sid st conn hWF hS hc

theorem inv_reap_all (dbOk : Bool) (now : Nat) (L : List Nat) :
    ∀ st : ServerState, WFKeys st → IdxSound st →
      WFKeys (reap_all dbOk now L st).1 ∧ IdxSound (reap_all dbOk now L st).1 := by
  induction L with
  | nil => intro st hWF hS; exact ⟨hWF, hS⟩
  | cons sid ss ih =>
    intro st hWF hS
    cases hc : lookupA st.active_connections sid with
    | none =>
      have he : (reap_all dbOk now (sid :: ss) st).1 = (reap_all dbOk now ss st).1 := by
        simp only [reap_all, hc]
      rw [he]
      exact ih st hWF hS
    | some conn =>
      have he : (reap_all dbOk now (sid :: ss) st).1
          = (reap_all dbOk now ss
              { (leave_all dbOk now sid conn.rooms st).1 with
                active_connections :=
                  eraseA (leave_all dbOk now sid conn.rooms st).1.active_connections sid }).1 := by
        simp only [reap_all, hc]
      rw [he]
      obtain ⟨hW2, hS2⟩ := inv_erase_after_leave_all dbOk now sid st conn hWF hS hc
      exact ih _ hW2 hS2

theorem inv_cleanup_sweep (dbOk : Bool) (now : Nat) (st : ServerState)
    (hWF : WFKeys st) (hS : IdxSound st) :
    WFKeys (cleanup_sweep dbOk now st).1 ∧ IdxSound (cleanup_sweep dbOk now st).1 :=
  inv_reap_all dbOk now _ st hWF hS

theorem inv_handle_connect (now sid : Nat) (auth : Option String) (ip : String)
    (st : ServerState) (hfresh : lookupA st.active_connections sid = none)
    (hWF : WFKeys st) (hS : IdxSound st) :
    WFKeys (handle_connect now sid auth ip st).1
    ∧ IdxSound (handle_connect now sid auth ip st).1 := by
  cases auth with
  | none => exact ⟨hWF, hS⟩
  | some tok =>
    cases hv : verify_session_token now st.store tok with
    | none =>
      have he : (handle_connect now sid (some tok) ip st).1 = st := by
        unfold handle_connect
        simp only [hv]
      rw [he]
      exact ⟨hWF, hS⟩
    | some user =>
      have he : ∃ u, (handle_connect now sid (some tok) ip st).1
          = { st with
              active_connections := insertA st.active_connections sid
                { user_id := user.id, username := user.username, rooms := [],
                  connected_at := now, ip_address := ip },
              user_rooms := u } := by
        unfold handle_connect
        simp only [hv]
        exact ⟨_, rfl⟩
      rcases he with ⟨u, he⟩
      rw [he]
      constructor
      · unfold WFKeys
        exact nodup_keys_insertA _ hfresh hWF
      · intro r uu hu
        rcases hS r uu hu with ⟨p, hp, h1, h2⟩
        refine ⟨p, ?_, h1, h2⟩
        rw [insertA_of_none _ hfresh]
        exact List.mem_append.mpr (Or.inl hp)

/-- The send handler never changes the registry, the indexes, or anything
but the store. -/
theorem handle_send_message_shape (dbOk : Bool) (now sid : Nat)
    (roomArg : Option Nat) (content mtype : String) (st : ServerState) :
    ∃ stor, (handle_send_message dbOk now sid roomArg content mtype st).1
      = { st with store := stor } := by
  unfold handle_send_message send_message_commit
  cases hc : lookupA st.active_connections sid with
  | none => exact ⟨st.store, rfl⟩
  | some conn =>
    cases roomArg with
    | none => exact ⟨st.store, rfl⟩
    | some rid =>
      simp only []
      split
      · exact ⟨st.store, rfl⟩
      · split
        · exact ⟨st.store, rfl⟩
        · split
          · split
            · exact ⟨st.store, rfl⟩
            · split
              · exact ⟨st.store, rfl⟩
              · exact ⟨_, rfl⟩
          · split
            · exact ⟨st.store, rfl⟩
            · exact ⟨_, rfl⟩

theorem inv_handle_send (dbOk : Bool) (now sid : Nat) (roomArg : Option Nat)
    (content mtype : String) (st : ServerState)
    (hWF : WFKeys st) (hS : IdxSound st) :
    WFKeys (handle_send_message dbOk now sid roomArg content mtype st).1
    ∧ IdxSound (handle_send_message dbOk now sid roomArg content mtype st).1 := by
  rcases handle_send_message_shape dbOk now sid roomArg content mtype st with ⟨stor, he⟩
  rw [he]
  exact ⟨hWF, hS⟩

/-- The join handler either leaves the state unchanged or applies the
in-memory commit to the registry and room index (with some membership-map
and store contents). -/
theorem handle_join_room_cases (dbOk : Bool) (now sid rid : Nat)
    (st : ServerState) (conn : Conn)
    (hc : lookupA st.active_connections sid = some conn) :
    (handle_join_room dbOk now sid (some rid) st).1 = st
    ∨ ∃ u stor, (handle_join_room dbOk now sid (some rid) st).1
        = { st with
            active_connections := updateA st.active_connections sid
              (fun c => { c with rooms := addElem rid c.rooms }),
            room_users := fset st.room_users rid
              (addElem conn.user_id ((st.room_users rid).getD [])),
            user_rooms := u, store := stor } := by
  unfold handle_join_room
  simp only [hc]
  cases hr : room_get st.store rid with
  | none => exact Or.inl rfl
  | some room =>
    simp only []
    split
    · exact Or.inl rfl
    · split
      · exact Or.inl rfl
      · split
        · exact Or.inr ⟨_, _, rfl⟩
        · split
          · exact Or.inr ⟨_, _, rfl⟩
          · exact Or.inr ⟨_, _, rfl⟩

theorem inv_handle_join (dbOk : Bool) (now sid : Nat) (roomArg : Option Nat)
    (st : ServerState) (hWF : WFKeys st) (hS : IdxSound st) :
    WFKeys (handle_join_room dbOk now sid roomArg st).1
    ∧ IdxSound (handle_join_room dbOk now sid roomArg st).1 := by
  cases hc : lookupA st.active_connections sid with
  | none =>
    have he : (handle_join_room dbOk now sid roomArg st).1 = st := by
      unfold handle_join_room
      cases roomArg <;> simp only [hc]
    rw [he]
    exact ⟨hWF, hS⟩
  | some conn =>
    cases roomArg with
    | none =>
      have he : (handle_join_room dbOk now sid none st).1 = st := by
        unfold handle_join_room
        simp only [hc]
      rw [he]
      exact ⟨hWF, hS⟩
    | some rid =>
      rcases handle_join_room_cases dbOk now sid rid st conn hc with he | ⟨u, stor, he⟩
      · rw [he]
        exact ⟨hWF, hS⟩
      · rw [he]
        constructor
        · show (List.map (fun p => p.1) (updateA st.active_connections sid
            (fun c => { c with rooms := addElem rid c.rooms }))).Nodup
          exact nodup_keys_updateA hWF
        · exact idxsound_of_fields _ _ rfl rfl
            (idxsound_join_mem st sid rid conn hc hS)

theorem inv_handle_leave (dbOk : Bool) (now sid : Nat) (roomArg : Option Nat)
    (st : ServerState) (hWF : WFKeys st) (hS : IdxSound st) :
    WFKeys (handle_leave_room dbOk now sid roomArg st).1
    ∧ IdxSound (handle_leave_room dbOk now sid roomArg st).1 := by
  cases roomArg with
  | none => exact ⟨hWF, hS⟩
  | some rid =>
    have he : handle_leave_room dbOk now sid (some rid) st
        = if (lookupA st.active_connections sid).isSome then
            leave_room_internal dbOk now sid rid st else (st, []) := rfl
    rw [he]
    split
    · exact inv_leave_room_internal dbOk now sid rid st hWF hS
    · exact ⟨hWF, hS⟩

theorem inv_applyOp (op : Op) (st : ServerState)
    (hleg : legalStep op st = true) (hWF : WFKeys st) (hS : IdxSound st) :
    WFKeys (applyOp op st) ∧ IdxSound (applyOp op st) := by
  cases op with
  | connect now sid auth ip =>
    have hfresh : lookupA st.active_connections sid = none :=
      Option.isNone_iff_eq_none.mp hleg
    exact inv_handle_connect now sid auth ip st hfresh hWF hS
  | disconnect dbOk now sid => exact inv_handle_disconnect dbOk now sid st hWF hS
  | join dbOk now sid roomArg => exact inv_handle_join dbOk now sid roomArg st hWF hS
  | leave dbOk now sid roomArg => exact inv_handle_leave dbOk now sid roomArg st hWF hS
  | send dbOk now sid roomArg c t => exact inv_handle_send dbOk now sid roomArg c t st hWF hS
  | sweep dbOk now => exact inv_cleanup_sweep dbOk now st hWF hS

theorem inv_applyOps (ops : List Op) :
    ∀ st : ServerState, legal ops st = true → WFKeys st → IdxSound st →
      WFKeys (applyOps ops st) ∧ IdxSound (applyOps ops st) := by
  induction ops with
  | nil => intro st _ hWF hS; exact ⟨hWF, hS⟩
  | cons op ops ih =>
    intro st hleg hWF hS
    simp only [legal] at hleg
    rw [Bool.and_eq_true] at hleg
    obtain ⟨h1, h2⟩ := hleg
    obtain ⟨hW1, hS1⟩ := inv_applyOp op st h1 hWF hS
    exact ih (applyOp op st) h2 hW1 hS1

/-- C2 (amended): under every legal operation sequence from the initial
state, `room_users[R]` is contained in the set of user ids of live
connections whose joined room set contains R. The claimed set equality
fails when one user holds several simultaneous live sessions (see the
counterexample): a leave from one session discards the user from the
index even while another of their sessions is still in the room. -/
theorem room_index_contained (ops : List Op) (store : Store)
    (hlegal : legal ops (initState store) = true) :
    ∀ r u, u ∈ memIndex (applyOps ops (initState store)) r →
      ∃ p, p ∈ (applyOps ops (initState store)).active_connections
        ∧ p.2.user_id = u ∧ r ∈ p.2.rooms := by
  have hW : WFKeys (initState store) := List.nodup_nil
  have hS : IdxSound (initState store) := by
    intro r u hu
    simp [memIndex, initState] at hu
  exact (inv_applyOps ops (initState store) hlegal hW hS).2

/-- The first two operations of `cexOps`: user 1 connects and joins room 1. -/
def cexOps2 : List Op :=
  [Op.connect 0 1 (some "tok") "ip", Op.join true 0 1 (some 1)]

theorem room_index_contained_witness :
    legal cexOps2 (initState exStore) = true
    ∧ ∃ p, p ∈ (applyOps cexOps2 (initState exStore)).active_connections
        ∧ p.2.user_id = 1 ∧ 1 ∈ p.2.rooms :=
  ⟨by decide, room_index_contained cexOps2 exStore (by decide) 1 1 (by decide)⟩

end WsManager
